import Mathlib

/-!
Verification of the kelp market-making decision core: the volume admission
filter, the swing level provider, and the submission-mode filter chain.
Decimal quantities are embedded as rationals; the SDEX display precision of
7 decimal places is made explicit where the source quantizes.
-/

namespace Kelp

/-! ### Volume admission filter -/

/-- A daily volume accumulator (used for both the on-the-books snapshot OTB
and the to-be-booked ledger TBB): base- and quote-denominated volume. -/
structure VolumeAcc where
  base : ℚ
  quote : ℚ
deriving DecidableEq

/-- The cap configuration passed to the volume filter: an optional cap on
sold base-asset volume measured in base units, and an optional cap measured
in quote units. -/
structure LimitParameters where
  sellBaseAssetCapInBaseUnits : Option ℚ
  sellBaseAssetCapInQuoteUnits : Option ℚ
deriving DecidableEq

/-- A sell operation: price (quote per base) and amount (in base units). -/
structure ManageSellOffer where
  price : ℚ
  amount : ℚ
deriving DecidableEq

/-- Minimum of a value and an optional bound; an absent bound is
unconstrained. -/
def minWithCap (x : ℚ) : Option ℚ → ℚ
  | none => x
  | some c => min x c

/-- Round a base-asset amount down to the exchange's minimum tick
(SDEX precision of 7 decimal places). -/
def floorToTick (x : ℚ) : ℚ := (⌊x * 10 ^ 7⌋ : ℚ) / 10 ^ 7

/-- Modelled from the spec: the remaining base-unit capacity
`availableBase = capInBaseUnits - (OTB.base + TBB.base)` when a base cap is
configured (else unconstrained). -/
def availableBase (lp : LimitParameters) (dailyOTB dailyTBB : VolumeAcc) : Option ℚ :=
  lp.sellBaseAssetCapInBaseUnits.map (fun c => c - (dailyOTB.base + dailyTBB.base))

/-- Modelled from the spec: the remaining quote-unit capacity, converted to
base units using the operation's price. -/
def availableQuoteInBase (lp : LimitParameters) (dailyOTB dailyTBB : VolumeAcc)
    (op : ManageSellOffer) : Option ℚ :=
  lp.sellBaseAssetCapInQuoteUnits.map
    (fun c => (c - (dailyOTB.quote + dailyTBB.quote)) / op.price)

/-- Modelled from the spec: the admissible amount is the minimum of the
operation's own amount and whichever of availableBase / availableQuote
(converted to base units) is binding. -/
def admissibleAmount (dailyOTB dailyTBB : VolumeAcc) (op : ManageSellOffer)
    (lp : LimitParameters) : ℚ :=
  minWithCap (minWithCap op.amount (availableBase lp dailyOTB dailyTBB))
    (availableQuoteInBase lp dailyOTB dailyTBB op)

/-- Modelled from the spec: if the admissible amount is strictly less than
requested, the operation's amount is reduced to the admissible amount at the
exchange's minimum tick, rounded down. -/
def admittedAmount (dailyOTB dailyTBB : VolumeAcc) (op : ManageSellOffer)
    (lp : LimitParameters) : ℚ :=
  if admissibleAmount dailyOTB dailyTBB op lp < op.amount then
    floorToTick (admissibleAmount dailyOTB dailyTBB op lp)
  else op.amount

/-- Modelled from the spec: the volume admission filter's per-operation
function `volumeFilterFn` (plugins/volumeFilter.go, absent from src/, which
holds only its test `TestVolumeFilterFn`).  If the admissible amount is at
most zero the operation is dropped with TBB untouched; otherwise the
(possibly reduced) operation is admitted and TBB.base / TBB.quote grow by
the admitted amount and its quote equivalent (amount times price). -/
def volumeFilterFn (dailyOTB dailyTBB : VolumeAcc) (op : ManageSellOffer)
    (lp : LimitParameters) : Option ManageSellOffer × VolumeAcc :=
  if admissibleAmount dailyOTB dailyTBB op lp ≤ 0 then (none, dailyTBB)
  else
    (some { price := op.price, amount := admittedAmount dailyOTB dailyTBB op lp },
     { base := dailyTBB.base + admittedAmount dailyOTB dailyTBB op lp,
       quote := dailyTBB.quote + admittedAmount dailyOTB dailyTBB op lp * op.price })

/-- Apply the volume filter to a sequence of operations one after another
against the same daily OTB snapshot, threading the TBB accumulator. -/
def applyVolumeFilterAll (dailyOTB : VolumeAcc) (lp : LimitParameters)
    (tbb : VolumeAcc) (ops : List ManageSellOffer) : VolumeAcc :=
  ops.foldl (fun t op => (volumeFilterFn dailyOTB t op lp).2) tbb

/-! ### Volume filter helper lemmas -/

lemma floorToTick_le (x : ℚ) : floorToTick x ≤ x := by
  unfold floorToTick
  rw [div_le_iff₀ (by norm_num : (0:ℚ) < 10 ^ 7)]
  exact Int.floor_le (x * 10 ^ 7)

lemma minWithCap_le_left (x : ℚ) (o : Option ℚ) : minWithCap x o ≤ x := by
  cases o with
  | none => exact le_refl x
  | some c => exact min_le_left x c

lemma minWithCap_le_cap (x c : ℚ) : minWithCap x (some c) ≤ c := min_le_right x c

lemma admittedAmount_le_admissible (otb tbb : VolumeAcc) (op : ManageSellOffer)
    (lp : LimitParameters) :
    admittedAmount otb tbb op lp ≤ admissibleAmount otb tbb op lp := by
  unfold admittedAmount
  split
  · exact floorToTick_le _
  · next h => exact le_of_not_lt h

lemma admissible_le_availBase (otb tbb : VolumeAcc) (op : ManageSellOffer)
    (lp : LimitParameters) (cB : ℚ) (hc : lp.sellBaseAssetCapInBaseUnits = some cB) :
    admissibleAmount otb tbb op lp ≤ cB - (otb.base + tbb.base) := by
  unfold admissibleAmount availableBase
  rw [hc]
  exact le_trans (minWithCap_le_left _ _) (minWithCap_le_cap _ _)

lemma admissible_le_availQuote (otb tbb : VolumeAcc) (op : ManageSellOffer)
    (lp : LimitParameters) (cQ : ℚ) (hc : lp.sellBaseAssetCapInQuoteUnits = some cQ) :
    admissibleAmount otb tbb op lp ≤ (cQ - (otb.quote + tbb.quote)) / op.price := by
  unfold admissibleAmount availableQuoteInBase
  rw [hc]
  exact minWithCap_le_cap _ _

lemma volumeFilterFn_cap_step (otb t : VolumeAcc) (op : ManageSellOffer)
    (lp : LimitParameters) (hP : 0 < op.price)
    (hs : (volumeFilterFn otb t op lp).1.isSome = true) :
    (∀ cB, lp.sellBaseAssetCapInBaseUnits = some cB →
      otb.base + (volumeFilterFn otb t op lp).2.base ≤ cB) ∧
    (∀ cQ, lp.sellBaseAssetCapInQuoteUnits = some cQ →
      otb.quote + (volumeFilterFn otb t op lp).2.quote ≤ cQ) := by
  by_cases h : admissibleAmount otb t op lp ≤ 0
  · simp [volumeFilterFn, h] at hs
  · have hadm := admittedAmount_le_admissible otb t op lp
    constructor
    · intro cB hc
      have h1 := admissible_le_availBase otb t op lp cB hc
      simp only [volumeFilterFn, if_neg h]
      linarith
    · intro cQ hc
      have h1 := admissible_le_availQuote otb t op lp cQ hc
      have h2 : admittedAmount otb t op lp * op.price ≤ cQ - (otb.quote + t.quote) :=
        (le_div_iff₀ hP).mp (le_trans hadm h1)
      simp only [volumeFilterFn, if_neg h]
      linarith

/-! ### Claim theorems for the volume admission filter -/

lemma volumeFilterFn_eval (otb tbb : VolumeAcc) (P A : ℚ) (lp : LimitParameters)
    (m adm : ℚ) (hm : admissibleAmount otb tbb ⟨P, A⟩ lp = m) (hpos : 0 < m)
    (hadm : adm = if m < A then floorToTick m else A) :
    volumeFilterFn otb tbb ⟨P, A⟩ lp =
      (some ⟨P, adm⟩, ⟨tbb.base + adm, tbb.quote + adm * P⟩) := by
  have hadmval : admittedAmount otb tbb ⟨P, A⟩ lp = adm := by
    simp only [admittedAmount, hm, hadm]
  simp only [volumeFilterFn, hm, hadmval, if_neg (not_le.mpr hpos)]

/-- C1 (amended): for a sell operation with price P and amount A, with a
base cap and/or a quote cap configured, when the admissible amount m —
the minimum of A, capInBaseUnits - (OTB.base + TBB.base), and
(capInQuoteUnits - (OTB.quote + TBB.quote))/P, taken over whichever caps
are configured — is positive, the admitted amount is m rounded down to the
exchange's 10^-7 tick whenever m is strictly below A (and A itself
otherwise), and on admission TBB.base grows by exactly the admitted amount
and TBB.quote by exactly the admitted amount times P; this is stated for
all three configurations (both caps, base cap only, quote cap only).  In
particular capInBaseUnits=1.0, OTB=0, TBB=0, P=2.0, A=100.0 admits 1.0
leaving TBB.base=1.0 and TBB.quote=2.0, and capInQuoteUnits=1.0 with the
same inputs admits 0.5 leaving TBB.base=0.5 and TBB.quote=1.0. -/
theorem volumeFilterFn_admitted_amount :
    (∀ (otb tbb : VolumeAcc) (P A cB cQ m adm : ℚ), 0 < P →
      m = min A (min (cB - (otb.base + tbb.base))
        ((cQ - (otb.quote + tbb.quote)) / P)) →
      0 < m → adm = (if m < A then floorToTick m else A) →
      volumeFilterFn otb tbb ⟨P, A⟩ ⟨some cB, some cQ⟩ =
        (some ⟨P, adm⟩, ⟨tbb.base + adm, tbb.quote + adm * P⟩)) ∧
    (∀ (otb tbb : VolumeAcc) (P A cB m adm : ℚ), 0 < P →
      m = min A (cB - (otb.base + tbb.base)) →
      0 < m → adm = (if m < A then floorToTick m else A) →
      volumeFilterFn otb tbb ⟨P, A⟩ ⟨some cB, none⟩ =
        (some ⟨P, adm⟩, ⟨tbb.base + adm, tbb.quote + adm * P⟩)) ∧
    (∀ (otb tbb : VolumeAcc) (P A cQ m adm : ℚ), 0 < P →
      m = min A ((cQ - (otb.quote + tbb.quote)) / P) →
      0 < m → adm = (if m < A then floorToTick m else A) →
      volumeFilterFn otb tbb ⟨P, A⟩ ⟨none, some cQ⟩ =
        (some ⟨P, adm⟩, ⟨tbb.base + adm, tbb.quote + adm * P⟩)) ∧
    volumeFilterFn ⟨0,0⟩ ⟨0,0⟩ ⟨2,100⟩ ⟨some 1, none⟩ =
      (some ⟨2,1⟩, ⟨1,2⟩) ∧
    volumeFilterFn ⟨0,0⟩ ⟨0,0⟩ ⟨2,100⟩ ⟨none, some 1⟩ =
      (some ⟨2,1/2⟩, ⟨1/2,1⟩) := by
  refine ⟨?_, ?_, ?_, ?_, ?_⟩
  · intro otb tbb P A cB cQ m adm _hP hm hpos hadm
    refine volumeFilterFn_eval otb tbb P A _ m adm ?_ hpos hadm
    simp only [admissibleAmount, availableBase, availableQuoteInBase,
      minWithCap, Option.map, hm]
    rw [min_assoc]
  · intro otb tbb P A cB m adm _hP hm hpos hadm
    refine volumeFilterFn_eval otb tbb P A _ m adm ?_ hpos hadm
    simp only [admissibleAmount, availableBase, availableQuoteInBase,
      minWithCap, Option.map, hm]
  · intro otb tbb P A cQ m adm _hP hm hpos hadm
    refine volumeFilterFn_eval otb tbb P A _ m adm ?_ hpos hadm
    simp only [admissibleAmount, availableBase, availableQuoteInBase,
      minWithCap, Option.map, hm]
  · norm_num [volumeFilterFn, admittedAmount, admissibleAmount, availableBase,
      availableQuoteInBase, minWithCap, floorToTick]
  · norm_num [volumeFilterFn, admittedAmount, admissibleAmount, availableBase,
      availableQuoteInBase, minWithCap, floorToTick]

/-- Witness for C1: with both caps at 1.0, OTB=TBB=0, price 2.0 and
requested amount 100.0, the quote cap binds and 0.5 is admitted. -/
theorem volumeFilterFn_admitted_amount_witness :
    volumeFilterFn ⟨0,0⟩ ⟨0,0⟩ ⟨2,100⟩ ⟨some 1, some 1⟩ =
      (some ⟨2,1/2⟩, ⟨1/2,1⟩) := by
  have h := volumeFilterFn_admitted_amount.1 ⟨0,0⟩ ⟨0,0⟩ 2 100 1 1 (1/2) (1/2)
    (by norm_num) (by norm_num [min_def]) (by norm_num)
    (by norm_num [floorToTick])
  norm_num at h
  exact h

/-- C1 counterexample: with a base cap of 10^-8 (smaller than one tick),
OTB=TBB=0, price 2.0 and requested amount 100.0, the claim predicts the
admitted amount — and hence the TBB.base increase — to be exactly
min(100, 10^-8) = 10^-8, but the filter rounds down to the 10^-7 tick and
TBB.base stays 0. -/
theorem volumeFilterFn_admitted_amount_counterexample :
    (volumeFilterFn ⟨0,0⟩ ⟨0,0⟩ ⟨2,100⟩ ⟨some (1/10^8), none⟩).2.base ≠ 1/10^8 := by
  norm_num [volumeFilterFn, admittedAmount, admissibleAmount, availableBase,
    availableQuoteInBase, minWithCap, floorToTick]

/-- C2: applying the volume filter to any sequence of operations against the
same daily OTB snapshot and the same threaded TBB accumulator, every
admission leaves the committed volume within the configured caps:
OTB.base + TBB.base stays at most the base cap (when set) and
OTB.quote + TBB.quote at most the quote cap (when set). -/
theorem volumeFilter_caps_never_exceeded (otb tbb : VolumeAcc)
    (lp : LimitParameters) (ops : List ManageSellOffer) (op : ManageSellOffer)
    (hP : 0 < op.price)
    (hs : (volumeFilterFn otb (applyVolumeFilterAll otb lp tbb ops) op lp).1.isSome
      = true) :
    (∀ cB, lp.sellBaseAssetCapInBaseUnits = some cB →
      otb.base +
        (volumeFilterFn otb (applyVolumeFilterAll otb lp tbb ops) op lp).2.base ≤ cB) ∧
    (∀ cQ, lp.sellBaseAssetCapInQuoteUnits = some cQ →
      otb.quote +
        (volumeFilterFn otb (applyVolumeFilterAll otb lp tbb ops) op lp).2.quote ≤ cQ) :=
  volumeFilterFn_cap_step otb (applyVolumeFilterAll otb lp tbb ops) op lp hP hs

/-- Witness for C2: after one admitted operation of amount 0.25 at price 2.0
under caps of 1.0 on both axes, a second admitted operation still leaves
OTB.base + TBB.base within the base cap. -/
theorem volumeFilter_caps_never_exceeded_witness :
    (0:ℚ) + (volumeFilterFn ⟨0,0⟩
      (applyVolumeFilterAll ⟨0,0⟩ ⟨some 1, some 1⟩ ⟨0,0⟩ [⟨2,1/4⟩])
      ⟨2,100⟩ ⟨some 1, some 1⟩).2.base ≤ 1 := by
  exact (volumeFilter_caps_never_exceeded ⟨0,0⟩ ⟨0,0⟩ ⟨some 1, some 1⟩
    [⟨2,1/4⟩] ⟨2,100⟩ (by norm_num)
    (by norm_num [applyVolumeFilterAll, volumeFilterFn, admittedAmount,
      admissibleAmount, availableBase, availableQuoteInBase, minWithCap,
      floorToTick])).1 1 rfl

/-- C3: with nonnegative accumulated volumes and a positive operation price,
a cap of exactly zero on either axis makes the volume filter drop the
operation entirely and leave TBB unchanged, independent of the price. -/
theorem volumeFilter_zero_cap_drops (otb tbb : VolumeAcc) (op : ManageSellOffer)
    (lp : LimitParameters) (hP : 0 < op.price)
    (hb : 0 ≤ otb.base) (htb : 0 ≤ tbb.base)
    (hq : 0 ≤ otb.quote) (htq : 0 ≤ tbb.quote)
    (hcap : lp.sellBaseAssetCapInBaseUnits = some 0 ∨
      lp.sellBaseAssetCapInQuoteUnits = some 0) :
    volumeFilterFn otb tbb op lp = (none, tbb) := by
  have hnp : admissibleAmount otb tbb op lp ≤ 0 := by
    rcases hcap with hc | hc
    · have h1 := admissible_le_availBase otb tbb op lp 0 hc
      linarith
    · have h1 := admissible_le_availQuote otb tbb op lp 0 hc
      have h2 : (0 - (otb.quote + tbb.quote)) / op.price ≤ 0 := by
        apply div_nonpos_of_nonpos_of_nonneg <;> linarith
      linarith
  simp [volumeFilterFn, hnp]

/-- Witness for C3: a zero base cap drops a sell of 100.0 at price 2.0 even
with empty accumulators. -/
theorem volumeFilter_zero_cap_drops_witness :
    volumeFilterFn ⟨0,0⟩ ⟨0,0⟩ ⟨2,100⟩ ⟨some 0, none⟩ = (none, ⟨0,0⟩) := by
  exact volumeFilter_zero_cap_drops ⟨0,0⟩ ⟨0,0⟩ ⟨2,100⟩ ⟨some 0, none⟩
    (by norm_num) (le_refl 0) (le_refl 0) (le_refl 0) (le_refl 0) (Or.inl rfl)

/-! ### Swing level provider -/

/-- A price/amount level emitted by the level provider. -/
structure Level where
  price : ℚ
  amount : ℚ
deriving DecidableEq

/-- One past trade as consumed by `fetchLatestTradePrice`: the order's
timestamp (used as a cursor by the CCXT trade-history hack), the trade's
transaction identifier, whether the order action was a buy, and the order
price. -/
structure Trade where
  timestamp : ℤ
  transactionID : String
  isBuy : Bool
  price : ℚ

/-- The mutable fields of `swingLevelProvider` together with its
configuration.  The global `price2LastPrice` map is threaded separately. -/
structure SwingLevelProvider where
  spread : ℚ
  offsetSpread : ℚ
  amountBase : ℚ
  useMaxQuoteInTargetAmountCalc : Bool
  maxLevels : ℤ
  lastTradePrice : ℚ
  priceLimit : ℚ
  minBase : ℚ
  lastTradeCursor : String
  isFirstTradeHistoryRun : Bool

/-- Modelled from the spec: quantization of a price to the exchange's SDEX
display precision of 7 decimal places (`model.NumberFromFloat` with
`utils.SdexPrecision`; the `model` package is not under src/). -/
def quantize (x : ℚ) : ℚ := (⌊x * 10 ^ 7 + 1 / 2⌋ : ℚ) / 10 ^ 7

/-- The `price2LastPrice` map, threaded explicitly: an association list from
a quantized displayed price to the swing price stored for it, with at most
one entry per key. -/
def mapLookup : List (ℚ × ℚ) → ℚ → Option ℚ
  | [], _ => none
  | (k', v') :: rest, k => if k' = k then some v' else mapLookup rest k

/-- Upsert into the `price2LastPrice` association list: replace the entry
with the given key if present, else append. -/
def mapUpsert : List (ℚ × ℚ) → ℚ → ℚ → List (ℚ × ℚ)
  | [], k, v => [(k, v)]
  | (k', v') :: rest, k, v =>
      if k' = k then (k, v) :: rest else (k', v') :: mapUpsert rest k v

/-- One step of the scan in `getLastPriceFromMap`: the candidate is replaced
on the first iteration (`closestOfferPrice == -1`), or by a buy trigger
(entry key above the trade price and below the candidate), or by a sell
trigger (entry key below the trade price and above the candidate). -/
def scanStep (tradePrice : ℚ) (lastTradeIsBuy : Bool) (acc kv : ℚ × ℚ) : ℚ × ℚ :=
  if acc.1 = -1 ∨
     (lastTradeIsBuy = true ∧ kv.1 > tradePrice ∧ kv.1 < acc.1) ∨
     (lastTradeIsBuy = false ∧ kv.1 < tradePrice ∧ kv.1 > acc.1)
  then (kv.1, kv.2) else acc

/-- `getLastPriceFromMap`: on an exact hit return the mapped swing price;
otherwise scan all entries with `scanStep` starting from the sentinel
(-1, -1) and return the resulting last price. -/
def getLastPriceFromMap (m : List (ℚ × ℚ)) (tradePrice : ℚ)
    (lastTradeIsBuy : Bool) : ℚ :=
  match mapLookup m tradePrice with
  | some lp => lp
  | none => (m.foldl (scanStep tradePrice lastTradeIsBuy) ((-1 : ℚ), (-1 : ℚ))).2

/-- The polling loop of `fetchLatestTradePrice`.  The trade fetcher is
modelled as the list of successive page responses it returns; an exhausted
list means every further page is empty ("caught up").  Returns the result
of the fetch together with the number of `GetTradeHistory` calls made. -/
def fetchLoop (isCcxtHack : Bool) :
    List (Except String (List Trade)) → ℚ → String → Bool →
    Except String (ℚ × String × Bool) × ℕ
  | [], lastPrice, lastCursor, lastIsBuy => (.ok (lastPrice, lastCursor, lastIsBuy), 1)
  | .error e :: _, _, _, _ =>
      (.error ("error in tradeFetcher.GetTradeHistory: " ++ e), 1)
  | .ok [] :: _, lastPrice, lastCursor, lastIsBuy =>
      (.ok (lastPrice, lastCursor, lastIsBuy), 1)
  | .ok (t :: ts) :: rest, _, _, _ =>
      let lastTrade := (t :: ts).getLast (List.cons_ne_nil t ts)
      let newCursor :=
        if isCcxtHack then toString (lastTrade.timestamp + 1)
        else lastTrade.transactionID
      let r := fetchLoop isCcxtHack rest lastTrade.price newCursor lastTrade.isBuy
      (r.1, r.2 + 1)

/-- `fetchLatestTradePrice`: poll the trade fetcher from the stored cursor
forward until a page returns zero new trades, tracking the last trade's
price, cursor and inferred side. -/
def fetchLatestTradePrice (isCcxtHack : Bool)
    (pages : List (Except String (List Trade))) (p : SwingLevelProvider) :
    Except String (ℚ × String × Bool) × ℕ :=
  fetchLoop isCcxtHack pages p.lastTradePrice p.lastTradeCursor false

/-- The level-generation loop of `GetLevels`, with the remaining iteration
count as fuel (`for i := 0; i < int(p.maxLevels); i++`).  Each iteration
compounds the working price by half the spread, applies half the offset
spread, early-exits on the inventory or price-limit conditions, and
otherwise emits a level and upserts the `price2LastPrice` map. -/
def genLevels (p : SwingLevelProvider) (maxAssetBase : ℚ) :
    ℕ → ℚ → ℚ → List (ℚ × ℚ) → List Level × List (ℚ × ℚ)
  | 0, _, _, m => ([], m)
  | fuel + 1, newPrice0, baseExposed, m =>
      let newPrice := newPrice0 * (1 + p.spread / 2)
      let priceToUse := newPrice * (1 + p.offsetSpread / 2)
      let expectedBaseUsage :=
        if p.useMaxQuoteInTargetAmountCalc then p.amountBase / priceToUse
        else p.amountBase
      let expectedEndingBase := maxAssetBase - baseExposed - expectedBaseUsage
      if expectedEndingBase ≤ p.minBase then ([], m)
      else if p.useMaxQuoteInTargetAmountCalc = true ∧ 1 / priceToUse < p.priceLimit
      then ([], m)
      else if p.useMaxQuoteInTargetAmountCalc = false ∧ priceToUse > p.priceLimit
      then ([], m)
      else
        let lvl : Level := ⟨quantize priceToUse, quantize p.amountBase⟩
        let mapKey :=
          if p.useMaxQuoteInTargetAmountCalc then quantize (1 / priceToUse)
          else quantize priceToUse
        let mapValue :=
          if p.useMaxQuoteInTargetAmountCalc then 1 / newPrice else newPrice
        let r := genLevels p maxAssetBase fuel newPrice
          (baseExposed + expectedBaseUsage) (mapUpsert m mapKey mapValue)
        (lvl :: r.1, r.2)

/-- `GetLevels`: early-exit on exhausted base inventory, reconcile the swing
state against trade history, then generate levels.  Returns the levels (or
the fetch error), the provider state after the call, the `price2LastPrice`
map after the call, and the number of trade-history fetch calls made. -/
def GetLevels (isCcxtHack : Bool) (pages : List (Except String (List Trade)))
    (p : SwingLevelProvider) (pmap : List (ℚ × ℚ))
    (maxAssetBase maxAssetQuote : ℚ) :
    Except String (List Level) × SwingLevelProvider × List (ℚ × ℚ) × ℕ :=
  if maxAssetBase ≤ p.minBase then (.ok [], p, pmap, 0)
  else
    match fetchLatestTradePrice isCcxtHack pages p with
    | (.error e, n) => (.error ("error in fetchLatestTradePrice: " ++ e), p, pmap, n)
    | (.ok (lastPrice, lastCursor, lastIsBuy), n) =>
        let p1 : SwingLevelProvider :=
          if p.isFirstTradeHistoryRun then
            { p with isFirstTradeHistoryRun := false, lastTradeCursor := lastCursor }
          else if lastCursor = p.lastTradeCursor then p
          else
            { p with lastTradeCursor := lastCursor,
                     lastTradePrice :=
                       getLastPriceFromMap pmap (quantize lastPrice) lastIsBuy }
        let startPrice :=
          if p1.useMaxQuoteInTargetAmountCalc then 1 / p1.lastTradePrice
          else p1.lastTradePrice
        let r := genLevels p1 maxAssetBase p1.maxLevels.toNat startPrice 0 pmap
        (.ok r.1, p1, r.2, n)

/-! ### Swing provider helper lemmas -/

lemma mapLookup_upsert_self : ∀ (m : List (ℚ × ℚ)) (k v : ℚ),
    mapLookup (mapUpsert m k v) k = some v := by
  intro m k v
  induction m with
  | nil => simp [mapUpsert, mapLookup]
  | cons kv rest ih =>
      by_cases h : kv.1 = k
      · obtain ⟨k1, v1⟩ := kv
        simp_all [mapUpsert, mapLookup]
      · obtain ⟨k1, v1⟩ := kv
        simp only at h
        simp [mapUpsert, mapLookup, h, ih]

lemma mapLookup_upsert_ne : ∀ (m : List (ℚ × ℚ)) (k v k2 : ℚ), k2 ≠ k →
    mapLookup (mapUpsert m k v) k2 = mapLookup m k2 := by
  intro m k v k2 hne
  have hne2 : ¬ (k = k2) := fun h => hne h.symm
  induction m with
  | nil => simp [mapUpsert, mapLookup, hne2]
  | cons kv rest ih =>
      obtain ⟨k1, v1⟩ := kv
      by_cases h : k1 = k
      · subst h
        simp [mapUpsert, mapLookup, hne2]
      · simp only [mapUpsert, mapLookup, if_neg h]
        by_cases h2 : k1 = k2
        · simp [mapLookup, h2]
        · simp [mapLookup, h2, ih]

/-! ### Claim theorems for the swing level provider: early exit and errors -/

/-- C4: when `maxAssetBase <= minBase`, GetLevels returns an empty level
sequence with no error, performs no trade-history fetch, and leaves the
provider state and the price-continuity map unchanged. -/
theorem getLevels_early_exit (isCcxtHack : Bool)
    (pages : List (Except String (List Trade))) (p : SwingLevelProvider)
    (pmap : List (ℚ × ℚ)) (maxAssetBase maxAssetQuote : ℚ)
    (h : maxAssetBase ≤ p.minBase) :
    GetLevels isCcxtHack pages p pmap maxAssetBase maxAssetQuote =
      (.ok [], p, pmap, 0) := by
  simp [GetLevels, h]

/-- Witness for C4: a provider with minBase 5 and maxAssetBase 3 returns no
levels and makes no fetch call, even with pages available to fetch. -/
theorem getLevels_early_exit_witness :
    GetLevels false [.ok [⟨7, "t", true, 3⟩]]
      ⟨1/50, 0, 1, false, 3, 2, 1000000, 5, "c", true⟩ [(1, 2)] 3 100 =
      (.ok [], ⟨1/50, 0, 1, false, 3, 2, 1000000, 5, "c", true⟩, [(1, 2)], 0) := by
  exact getLevels_early_exit false [.ok [⟨7, "t", true, 3⟩]]
    ⟨1/50, 0, 1, false, 3, 2, 1000000, 5, "c", true⟩ [(1, 2)] 3 100 (by norm_num)

/-- C5: if the trade-history fetch fails (on any page), GetLevels surfaces
the error with no levels and leaves the provider state and the
price-continuity map exactly as they were before the call. -/
theorem getLevels_fetch_error (isCcxtHack : Bool)
    (pages : List (Except String (List Trade))) (p : SwingLevelProvider)
    (pmap : List (ℚ × ℚ)) (maxAssetBase maxAssetQuote : ℚ) (msg : String)
    (h1 : p.minBase < maxAssetBase)
    (h2 : (fetchLatestTradePrice isCcxtHack pages p).1 = .error msg) :
    GetLevels isCcxtHack pages p pmap maxAssetBase maxAssetQuote =
      (.error ("error in fetchLatestTradePrice: " ++ msg), p, pmap,
        (fetchLatestTradePrice isCcxtHack pages p).2) := by
  unfold GetLevels
  rw [if_neg (not_le.mpr h1)]
  rcases hr : fetchLatestTradePrice isCcxtHack pages p with ⟨r, n⟩
  cases r with
  | error e =>
      rw [hr] at h2
      simp only [Except.error.injEq] at h2
      subst h2
      simp
  | ok v =>
      rw [hr] at h2
      simp at h2

/-- Witness for C5: a fetcher whose first page errors makes GetLevels
return the error and hand back the provider state and map untouched. -/
theorem getLevels_fetch_error_witness :
    GetLevels false [.error "boom"]
      ⟨1/50, 0, 1, false, 3, 2, 1000000, 0, "c", true⟩ [(1, 2)] 100 100 =
      (.error "error in fetchLatestTradePrice: error in tradeFetcher.GetTradeHistory: boom",
        ⟨1/50, 0, 1, false, 3, 2, 1000000, 0, "c", true⟩, [(1, 2)], 1) := by
  have h := getLevels_fetch_error false [.error "boom"]
    ⟨1/50, 0, 1, false, 3, 2, 1000000, 0, "c", true⟩ [(1, 2)] 100 100
    "error in tradeFetcher.GetTradeHistory: boom" (by norm_num)
    (by simp [fetchLatestTradePrice, fetchLoop])
  simpa [fetchLatestTradePrice, fetchLoop] using h

/-! ### The sell-side level-generation loop -/

lemma genLevels_sell (p : SwingLevelProvider)
    (hside : p.useMaxQuoteInTargetAmountCalc = false) (mab : ℚ) :
    ∀ (fuel : ℕ) (q be : ℚ) (m : List (ℚ × ℚ)),
    (∀ i : ℕ, i < fuel → p.minBase < mab - be - ((i : ℚ) + 1) * p.amountBase) →
    (∀ i : ℕ, i < fuel →
      q * (1 + p.spread / 2) ^ (i + 1) * (1 + p.offsetSpread / 2) ≤ p.priceLimit) →
    (genLevels p mab fuel q be m).1.length = fuel ∧
    ∀ i : ℕ, i < fuel → (genLevels p mab fuel q be m).1[i]? =
      some ⟨quantize (q * (1 + p.spread / 2) ^ (i + 1) * (1 + p.offsetSpread / 2)),
            quantize p.amountBase⟩ := by
  intro fuel
  induction fuel with
  | zero =>
      intro q be m h1 h2
      exact ⟨by simp [genLevels], fun i hi => absurd hi (Nat.not_lt_zero i)⟩
  | succ fuel ih =>
      intro q be m h1 h2
      have hc1 : ¬ (mab - be - p.amountBase ≤ p.minBase) := by
        have h := h1 0 (Nat.succ_pos fuel)
        push_cast at h
        intro hle
        linarith
      have hc3 : ¬ (q * (1 + p.spread / 2) * (1 + p.offsetSpread / 2) > p.priceLimit) := by
        have h := h2 0 (Nat.succ_pos fuel)
        rw [pow_one] at h
        exact not_lt.mpr h
      have h1s : ∀ i : ℕ, i < fuel →
          p.minBase < mab - (be + p.amountBase) - ((i : ℚ) + 1) * p.amountBase := by
        intro i hi
        have h := h1 (i + 1) (Nat.succ_lt_succ hi)
        push_cast at h
        have heq : mab - be - ((i : ℚ) + 1 + 1) * p.amountBase =
            mab - (be + p.amountBase) - ((i : ℚ) + 1) * p.amountBase := by ring
        rw [heq] at h
        exact h
      have h2s : ∀ i : ℕ, i < fuel →
          (q * (1 + p.spread / 2)) * (1 + p.spread / 2) ^ (i + 1) *
            (1 + p.offsetSpread / 2) ≤ p.priceLimit := by
        intro i hi
        have h := h2 (i + 1) (Nat.succ_lt_succ hi)
        have heq : q * (1 + p.spread / 2) ^ (i + 1 + 1) * (1 + p.offsetSpread / 2) =
            (q * (1 + p.spread / 2)) * (1 + p.spread / 2) ^ (i + 1) *
              (1 + p.offsetSpread / 2) := by ring
        rw [heq] at h
        exact h
      have hg := ih (q * (1 + p.spread / 2)) (be + p.amountBase)
        (mapUpsert m (quantize (q * (1 + p.spread / 2) * (1 + p.offsetSpread / 2)))
          (q * (1 + p.spread / 2))) h1s h2s
      constructor
      · have hlen := hg.1
        simp [genLevels, hside, hc1, hc3, hlen]
      · intro i hi
        cases i with
        | zero => simp [genLevels, hside, hc1, hc3, pow_one]
        | succ i =>
            have h := hg.2 i (Nat.lt_of_succ_lt_succ hi)
            have heq : (q * (1 + p.spread / 2)) * (1 + p.spread / 2) ^ (i + 1) *
                (1 + p.offsetSpread / 2) =
                q * (1 + p.spread / 2) ^ (i + 1 + 1) * (1 + p.offsetSpread / 2) := by
              ring
            rw [heq] at h
            simp [genLevels, hside, hc1, hc3, h]

/-- C6 (amended): for a sell-side provider with maxLevels = N, no new trade
history and no early-exit condition (remaining exposed base stays strictly
above minBase for every level and no level price exceeds the price limit),
GetLevels emits exactly N levels; level i (1-based) carries the price
lastTradePrice * (1 + spread/2)^i * (1 + offsetSpread/2) rounded to the
exchange's 7-decimal display precision and the amount amountBase rounded
the same way; the pre-rounding prices have strictly larger displacement
from the swing price at each successive level (for positive spread and
swing price and nonnegative offset spread). -/
theorem getLevels_sell_levels (isCcxtHack : Bool) (p : SwingLevelProvider)
    (pmap : List (ℚ × ℚ)) (maxAssetBase maxAssetQuote : ℚ) (N : ℕ)
    (hside : p.useMaxQuoteInTargetAmountCalc = false)
    (hN : p.maxLevels.toNat = N)
    (hbase : p.minBase < maxAssetBase)
    (h1 : ∀ i : ℕ, i < N →
      p.minBase < maxAssetBase - ((i : ℚ) + 1) * p.amountBase)
    (h2 : ∀ i : ℕ, i < N →
      p.lastTradePrice * (1 + p.spread / 2) ^ (i + 1) * (1 + p.offsetSpread / 2)
        ≤ p.priceLimit) :
    (∃ L, (GetLevels isCcxtHack [] p pmap maxAssetBase maxAssetQuote).1 = .ok L ∧
      L.length = N ∧
      ∀ i : ℕ, i < N → L[i]? =
        some ⟨quantize (p.lastTradePrice * (1 + p.spread / 2) ^ (i + 1)
                * (1 + p.offsetSpread / 2)),
              quantize p.amountBase⟩) ∧
    (0 < p.spread → 0 < p.lastTradePrice → 0 ≤ p.offsetSpread → ∀ i : ℕ,
      p.lastTradePrice * (1 + p.spread / 2) ^ (i + 1) * (1 + p.offsetSpread / 2) <
      p.lastTradePrice * (1 + p.spread / 2) ^ (i + 2) * (1 + p.offsetSpread / 2)) := by
  subst hN
  constructor
  · have hb : ¬ (maxAssetBase ≤ p.minBase) := not_le.mpr hbase
    have h1c : ∀ i : ℕ, i < p.maxLevels.toNat →
        p.minBase < maxAssetBase - 0 - ((i : ℚ) + 1) * p.amountBase := by
      intro i hi
      have := h1 i hi
      linarith
    cases hf : p.isFirstTradeHistoryRun
    case false =>
        have hg := genLevels_sell p hside maxAssetBase p.maxLevels.toNat
          p.lastTradePrice 0 pmap h1c h2
        refine ⟨(genLevels p maxAssetBase p.maxLevels.toNat p.lastTradePrice 0 pmap).1,
          ?_, hg.1, fun i hi => hg.2 i hi⟩
        simp [GetLevels, hb, fetchLatestTradePrice, fetchLoop, hf, hside]
    case true =>
        have hg := genLevels_sell
          {p with isFirstTradeHistoryRun := false, lastTradeCursor := p.lastTradeCursor}
          hside maxAssetBase p.maxLevels.toNat p.lastTradePrice 0 pmap h1c h2
        refine ⟨(genLevels
          {p with isFirstTradeHistoryRun := false, lastTradeCursor := p.lastTradeCursor}
          maxAssetBase p.maxLevels.toNat p.lastTradePrice 0 pmap).1,
          ?_, hg.1, fun i hi => hg.2 i hi⟩
        simp [GetLevels, hb, fetchLatestTradePrice, fetchLoop, hf, hside]
  · intro hs hl ho i
    have e1 : (0:ℚ) < 1 + p.spread / 2 := by linarith
    have e2 : (0:ℚ) < 1 + p.offsetSpread / 2 := by linarith
    have hpos : 0 < p.lastTradePrice * (1 + p.spread / 2) ^ (i + 1)
        * (1 + p.offsetSpread / 2) :=
      mul_pos (mul_pos hl (pow_pos e1 (i + 1))) e2
    have heq : p.lastTradePrice * (1 + p.spread / 2) ^ (i + 2)
        * (1 + p.offsetSpread / 2) =
        (p.lastTradePrice * (1 + p.spread / 2) ^ (i + 1) * (1 + p.offsetSpread / 2))
          * (1 + p.spread / 2) := by ring
    rw [heq]
    exact lt_mul_of_one_lt_right hpos (by linarith)

/-- Witness for C6: the spec example (spread 0.02, offsetSpread 0,
amountBase 1, maxLevels 3, lastTradePrice 2, minBase 0, maxAssetBase 100)
produces exactly 3 levels with the quantized compounded prices. -/
theorem getLevels_sell_levels_witness :
    (∃ L, (GetLevels false [] ⟨1/50, 0, 1, false, 3, 2, 1000000, 0, "c", true⟩
      [] 100 100).1 = .ok L ∧ L.length = 3 ∧
      ∀ i : ℕ, i < 3 → L[i]? =
        some ⟨quantize (2 * (1 + (1/50) / 2) ^ (i + 1) * (1 + 0 / 2)),
              quantize 1⟩) ∧
    (0 < (1/50 : ℚ) → 0 < (2 : ℚ) → 0 ≤ (0 : ℚ) → ∀ i : ℕ,
      2 * (1 + (1/50 : ℚ) / 2) ^ (i + 1) * (1 + 0 / 2) <
      2 * (1 + (1/50 : ℚ) / 2) ^ (i + 2) * (1 + 0 / 2)) := by
  exact getLevels_sell_levels false ⟨1/50, 0, 1, false, 3, 2, 1000000, 0, "c", true⟩
    [] 100 100 3 rfl rfl (by norm_num)
    (by intro i hi; interval_cases i <;> norm_num)
    (by intro i hi; interval_cases i <;> norm_num)

/-- C6 counterexample: with spread 0.02, offsetSpread 0, lastTradePrice 2.0
and maxLevels 4 (no early exit), the claim predicts the 4th level price to
be exactly 2 * 1.01^4 = 2.08120802, but the emitted price is quantized to 7
decimals (2.0812080), so the emitted level list differs from the claimed
one. -/
theorem getLevels_sell_levels_counterexample :
    (GetLevels false [] ⟨1/50, 0, 1, false, 4, 2, 1000000, 0, "c", true⟩
      [] 100 100).1 ≠
    .ok [⟨101/50, 1⟩, ⟨20402/10^4, 1⟩, ⟨2060602/10^6, 1⟩, ⟨208120802/10^8, 1⟩] := by
  norm_num [GetLevels, fetchLatestTradePrice, fetchLoop, genLevels,
    quantize, mapUpsert, getLastPriceFromMap, mapLookup]

/-! ### The nearest-price scan of getLastPriceFromMap -/

lemma scan_buy (t : ℚ) :
    ∀ (l : List (ℚ × ℚ)) (c v : ℚ), 0 ≤ c → t < c → (∀ kv ∈ l, 0 ≤ kv.1) →
    (l.foldl (scanStep t true) (c, v) = (c, v) ∨
      l.foldl (scanStep t true) (c, v) ∈ l) ∧
    t < (l.foldl (scanStep t true) (c, v)).1 ∧
    0 ≤ (l.foldl (scanStep t true) (c, v)).1 ∧
    (l.foldl (scanStep t true) (c, v)).1 ≤ c ∧
    ∀ kv ∈ l, t < kv.1 → (l.foldl (scanStep t true) (c, v)).1 ≤ kv.1 := by
  intro l
  induction l with
  | nil =>
      intro c v hc ht _
      exact ⟨Or.inl rfl, ht, hc, le_refl c, by simp⟩
  | cons kv l ih =>
      intro c v hc ht hnn
      obtain ⟨k, w⟩ := kv
      have hk : 0 ≤ k := hnn (k, w) (List.mem_cons_self _ _)
      have hl : ∀ kv ∈ l, 0 ≤ kv.1 := fun kv h => hnn kv (List.mem_cons_of_mem _ h)
      have hcne : ¬ ((c, v).1 = -1) := by simp; intro h; rw [h] at hc; linarith
      have hstep : scanStep t true (c, v) (k, w) =
          if t < k ∧ k < c then (k, w) else (c, v) := by
        simp [scanStep, hcne]
      rw [List.foldl_cons, hstep]
      by_cases hcase : t < k ∧ k < c
      · rw [if_pos hcase]
        obtain ⟨hmem, h1, h2, h3, h4⟩ := ih k w hk hcase.1 hl
        refine ⟨?_, h1, h2, le_trans h3 (le_of_lt hcase.2), ?_⟩
        · rcases hmem with he | hin
          · rw [he]; exact Or.inr (List.mem_cons_self _ _)
          · exact Or.inr (List.mem_cons_of_mem _ hin)
        · intro kv hkv htkv
          rcases List.mem_cons.mp hkv with he | hin
          · rw [he]; exact h3
          · exact h4 kv hin htkv
      · rw [if_neg hcase]
        obtain ⟨hmem, h1, h2, h3, h4⟩ := ih c v hc ht hl
        refine ⟨?_, h1, h2, h3, ?_⟩
        · rcases hmem with he | hin
          · exact Or.inl he
          · exact Or.inr (List.mem_cons_of_mem _ hin)
        · intro kv hkv htkv
          rcases List.mem_cons.mp hkv with he | hin
          · rw [he]
            have hck : c ≤ k := by
              by_contra hck
              exact hcase ⟨by rw [he] at htkv; exact htkv, not_le.mp hck⟩
            exact le_trans h3 hck
          · exact h4 kv hin htkv

lemma scan_sell (t : ℚ) :
    ∀ (l : List (ℚ × ℚ)) (c v : ℚ), 0 ≤ c → c < t → (∀ kv ∈ l, 0 ≤ kv.1) →
    (l.foldl (scanStep t false) (c, v) = (c, v) ∨
      l.foldl (scanStep t false) (c, v) ∈ l) ∧
    (l.foldl (scanStep t false) (c, v)).1 < t ∧
    0 ≤ (l.foldl (scanStep t false) (c, v)).1 ∧
    c ≤ (l.foldl (scanStep t false) (c, v)).1 ∧
    ∀ kv ∈ l, kv.1 < t → kv.1 ≤ (l.foldl (scanStep t false) (c, v)).1 := by
  intro l
  induction l with
  | nil =>
      intro c v hc ht _
      exact ⟨Or.inl rfl, ht, hc, le_refl c, by simp⟩
  | cons kv l ih =>
      intro c v hc ht hnn
      obtain ⟨k, w⟩ := kv
      have hk : 0 ≤ k := hnn (k, w) (List.mem_cons_self _ _)
      have hl : ∀ kv ∈ l, 0 ≤ kv.1 := fun kv h => hnn kv (List.mem_cons_of_mem _ h)
      have hcne : ¬ ((c, v).1 = -1) := by simp; intro h; rw [h] at hc; linarith
      have hstep : scanStep t false (c, v) (k, w) =
          if k < t ∧ c < k then (k, w) else (c, v) := by
        simp [scanStep, hcne]
      rw [List.foldl_cons, hstep]
      by_cases hcase : k < t ∧ c < k
      · rw [if_pos hcase]
        obtain ⟨hmem, h1, h2, h3, h4⟩ := ih k w hk hcase.1 hl
        refine ⟨?_, h1, h2, le_trans (le_of_lt hcase.2) h3, ?_⟩
        · rcases hmem with he | hin
          · rw [he]; exact Or.inr (List.mem_cons_self _ _)
          · exact Or.inr (List.mem_cons_of_mem _ hin)
        · intro kv hkv htkv
          rcases List.mem_cons.mp hkv with he | hin
          · rw [he]; exact h3
          · exact h4 kv hin htkv
      · rw [if_neg hcase]
        obtain ⟨hmem, h1, h2, h3, h4⟩ := ih c v hc ht hl
        refine ⟨?_, h1, h2, h3, ?_⟩
        · rcases hmem with he | hin
          · exact Or.inl he
          · exact Or.inr (List.mem_cons_of_mem _ hin)
        · intro kv hkv htkv
          rcases List.mem_cons.mp hkv with he | hin
          · rw [he]
            have hck : k ≤ c := by
              by_contra hck
              exact hcase ⟨by rw [he] at htkv; exact htkv, not_le.mp hck⟩
            exact le_trans hck h3
          · exact h4 kv hin htkv

/-- C7 (amended): for a quantized last-trade price with no exact match in a
nonempty price-continuity map whose first scanned entry lies on the
trade-direction side of the trade price, the scan resolves to the mapped
value of the nearest direction-consistent key (strictly greater for a
buy-side trigger, strictly less for a sell-side trigger); on an empty map
the result is the sentinel -1.  (As the counterexample shows, when the
first scanned entry is not direction-consistent it is still adopted, so
the claimed fallback to the sentinel does not hold in general.) -/
theorem getLastPriceFromMap_nearest (m : List (ℚ × ℚ)) (t k0 v0 : ℚ)
    (rest : List (ℚ × ℚ)) (hm : m = (k0, v0) :: rest)
    (hlookup : mapLookup m t = none)
    (hnn : ∀ kv ∈ m, 0 ≤ kv.1) (ht : 0 ≤ t) :
    (∀ b, getLastPriceFromMap [] t b = -1) ∧
    (t < k0 → ∃ k v, (k, v) ∈ m ∧ t < k ∧
      (∀ kv ∈ m, t < kv.1 → k ≤ kv.1) ∧ getLastPriceFromMap m t true = v) ∧
    (k0 < t → ∃ k v, (k, v) ∈ m ∧ k < t ∧
      (∀ kv ∈ m, kv.1 < t → kv.1 ≤ k) ∧ getLastPriceFromMap m t false = v) := by
  subst hm
  have hk0nn : 0 ≤ k0 := hnn (k0, v0) (List.mem_cons_self _ _)
  have hrest : ∀ kv ∈ rest, 0 ≤ kv.1 := fun kv h => hnn kv (List.mem_cons_of_mem _ h)
  refine ⟨fun b => rfl, ?_, ?_⟩
  · intro hk0
    obtain ⟨hmem, h1, h2, h3, h4⟩ := scan_buy t rest k0 v0 hk0nn hk0 hrest
    refine ⟨(rest.foldl (scanStep t true) (k0, v0)).1,
      (rest.foldl (scanStep t true) (k0, v0)).2, ?_, h1, ?_, ?_⟩
    · rw [Prod.mk.eta]
      rcases hmem with he | hin
      · rw [he]; exact List.mem_cons_self _ _
      · exact List.mem_cons_of_mem _ hin
    · intro kv hkv htkv
      rcases List.mem_cons.mp hkv with he | hin
      · rw [he]; exact h3
      · exact h4 kv hin htkv
    · simp [getLastPriceFromMap, hlookup, List.foldl_cons, scanStep]
  · intro hk0
    obtain ⟨hmem, h1, h2, h3, h4⟩ := scan_sell t rest k0 v0 hk0nn hk0 hrest
    refine ⟨(rest.foldl (scanStep t false) (k0, v0)).1,
      (rest.foldl (scanStep t false) (k0, v0)).2, ?_, h1, ?_, ?_⟩
    · rw [Prod.mk.eta]
      rcases hmem with he | hin
      · rw [he]; exact List.mem_cons_self _ _
      · exact List.mem_cons_of_mem _ hin
    · intro kv hkv htkv
      rcases List.mem_cons.mp hkv with he | hin
      · rw [he]; exact h3
      · exact h4 kv hin htkv
    · simp [getLastPriceFromMap, hlookup, List.foldl_cons, scanStep]

/-- Witness for C7: in the map {20 -> 9, 5 -> 3, 15 -> 8} with trade price
10 (no exact match) and a buy-side trigger, the first scanned key 20 is
direction-consistent and the scan resolves to the value 8 mapped by 15, the
nearest key strictly greater than 10. -/
theorem getLastPriceFromMap_nearest_witness :
    ∃ k v, (k, v) ∈ [((20:ℚ), (9:ℚ)), (5, 3), (15, 8)] ∧ (10:ℚ) < k ∧
      (∀ kv ∈ [((20:ℚ), (9:ℚ)), (5, 3), (15, 8)], (10:ℚ) < kv.1 → k ≤ kv.1) ∧
      getLastPriceFromMap [((20:ℚ), (9:ℚ)), (5, 3), (15, 8)] 10 true = v := by
  exact (getLastPriceFromMap_nearest [((20:ℚ), (9:ℚ)), (5, 3), (15, 8)] 10 20 9
    [(5, 3), (15, 8)] rfl (by norm_num [mapLookup])
    (by intro kv hkv; fin_cases hkv <;> norm_num) (by norm_num)).2.1 (by norm_num)

/-- C7 counterexample: in the map {5 -> 7} with trade price 10 and a
buy-side trigger, no key is strictly greater than the trade price, so the
claim predicts the sentinel -1; the scan instead adopts the first entry
unconditionally and returns 7. -/
theorem getLastPriceFromMap_nearest_counterexample :
    getLastPriceFromMap [((5:ℚ), (7:ℚ))] 10 true = 7 ∧ (7:ℚ) ≠ -1 := by
  constructor
  · norm_num [getLastPriceFromMap, mapLookup, scanStep]
  · norm_num

/-! ### Price continuity of emitted levels -/

lemma genLevels_succ_sell (p : SwingLevelProvider)
    (hside : p.useMaxQuoteInTargetAmountCalc = false) (mab : ℚ) (fuel : ℕ)
    (q be : ℚ) (m : List (ℚ × ℚ))
    (hc1 : ¬ (mab - be - p.amountBase ≤ p.minBase))
    (hc3 : ¬ (q * (1 + p.spread / 2) * (1 + p.offsetSpread / 2) > p.priceLimit)) :
    genLevels p mab (fuel + 1) q be m =
      (Level.mk (quantize (q * (1 + p.spread / 2) * (1 + p.offsetSpread / 2)))
          (quantize p.amountBase) ::
        (genLevels p mab fuel (q * (1 + p.spread / 2)) (be + p.amountBase)
          (mapUpsert m (quantize (q * (1 + p.spread / 2) * (1 + p.offsetSpread / 2)))
            (q * (1 + p.spread / 2)))).1,
       (genLevels p mab fuel (q * (1 + p.spread / 2)) (be + p.amountBase)
          (mapUpsert m (quantize (q * (1 + p.spread / 2) * (1 + p.offsetSpread / 2)))
            (q * (1 + p.spread / 2)))).2) := by
  simp [genLevels, hside, hc1, hc3]

lemma genLevels_pmap_frame (p : SwingLevelProvider)
    (hside : p.useMaxQuoteInTargetAmountCalc = false) (mab : ℚ) :
    ∀ (fuel : ℕ) (q be : ℚ) (m : List (ℚ × ℚ)) (key : ℚ),
    (∀ j : ℕ, j < fuel →
      key ≠ quantize (q * (1 + p.spread / 2) ^ (j + 1) * (1 + p.offsetSpread / 2))) →
    mapLookup (genLevels p mab fuel q be m).2 key = mapLookup m key := by
  intro fuel
  induction fuel with
  | zero => intro q be m key _; simp [genLevels]
  | succ fuel ih =>
      intro q be m key h
      by_cases hc1 : mab - be - p.amountBase ≤ p.minBase
      · simp [genLevels, hside, hc1]
      · by_cases hc3 : q * (1 + p.spread / 2) * (1 + p.offsetSpread / 2) > p.priceLimit
        · simp [genLevels, hside, hc1, hc3]
        · have hkey0 : key ≠ quantize (q * (1 + p.spread / 2) * (1 + p.offsetSpread / 2)) := by
            have hne := h 0 (Nat.succ_pos fuel)
            rwa [pow_one] at hne
          have hshift : ∀ j : ℕ, j < fuel →
              key ≠ quantize ((q * (1 + p.spread / 2)) * (1 + p.spread / 2) ^ (j + 1)
                * (1 + p.offsetSpread / 2)) := by
            intro j hj
            have hne := h (j + 1) (Nat.succ_lt_succ hj)
            have e1 : q * (1 + p.spread / 2) ^ (j + 1 + 1) * (1 + p.offsetSpread / 2) =
                (q * (1 + p.spread / 2)) * (1 + p.spread / 2) ^ (j + 1)
                  * (1 + p.offsetSpread / 2) := by ring
            rwa [e1] at hne
          rw [genLevels_succ_sell p hside mab fuel q be m hc1 hc3]
          rw [ih (q * (1 + p.spread / 2)) (be + p.amountBase) _ key hshift]
          exact mapLookup_upsert_ne m _ _ key hkey0

lemma genLevels_pmap_lookup (p : SwingLevelProvider)
    (hside : p.useMaxQuoteInTargetAmountCalc = false) (mab : ℚ) :
    ∀ (fuel : ℕ) (q be : ℚ) (m : List (ℚ × ℚ)) (i : ℕ), i < fuel →
    (∀ i2 : ℕ, i2 < fuel → p.minBase < mab - be - ((i2 : ℚ) + 1) * p.amountBase) →
    (∀ i2 : ℕ, i2 < fuel →
      q * (1 + p.spread / 2) ^ (i2 + 1) * (1 + p.offsetSpread / 2) ≤ p.priceLimit) →
    (∀ j : ℕ, j < fuel → j ≠ i →
      quantize (q * (1 + p.spread / 2) ^ (j + 1) * (1 + p.offsetSpread / 2)) ≠
      quantize (q * (1 + p.spread / 2) ^ (i + 1) * (1 + p.offsetSpread / 2))) →
    mapLookup (genLevels p mab fuel q be m).2
      (quantize (q * (1 + p.spread / 2) ^ (i + 1) * (1 + p.offsetSpread / 2))) =
      some (q * (1 + p.spread / 2) ^ (i + 1)) := by
  intro fuel
  induction fuel with
  | zero => intro q be m i hi _ _ _; exact absurd hi (Nat.not_lt_zero i)
  | succ fuel ih =>
      intro q be m i hi h1 h2 hdist
      have hc1 : ¬ (mab - be - p.amountBase ≤ p.minBase) := by
        have h := h1 0 (Nat.succ_pos fuel)
        push_cast at h
        intro hle
        linarith
      have hc3 : ¬ (q * (1 + p.spread / 2) * (1 + p.offsetSpread / 2) > p.priceLimit) := by
        have h := h2 0 (Nat.succ_pos fuel)
        rw [pow_one] at h
        exact not_lt.mpr h
      rw [genLevels_succ_sell p hside mab fuel q be m hc1 hc3]
      cases i with
      | zero =>
          have hshift : ∀ j : ℕ, j < fuel →
              quantize (q * (1 + p.spread / 2) ^ (0 + 1) * (1 + p.offsetSpread / 2)) ≠
              quantize ((q * (1 + p.spread / 2)) * (1 + p.spread / 2) ^ (j + 1)
                * (1 + p.offsetSpread / 2)) := by
            intro j hj
            have hne := hdist (j + 1) (Nat.succ_lt_succ hj) (Nat.succ_ne_zero j)
            have e1 : q * (1 + p.spread / 2) ^ (j + 1 + 1) * (1 + p.offsetSpread / 2) =
                (q * (1 + p.spread / 2)) * (1 + p.spread / 2) ^ (j + 1)
                  * (1 + p.offsetSpread / 2) := by ring
            rw [e1] at hne
            exact hne.symm
          rw [genLevels_pmap_frame p hside mab fuel (q * (1 + p.spread / 2))
            (be + p.amountBase) _ _ hshift]
          have eK : q * (1 + p.spread / 2) ^ (0 + 1) * (1 + p.offsetSpread / 2) =
              q * (1 + p.spread / 2) * (1 + p.offsetSpread / 2) := by ring
          have eV : q * (1 + p.spread / 2) ^ (0 + 1) = q * (1 + p.spread / 2) := by ring
          rw [eK, eV]
          exact mapLookup_upsert_self m _ _
      | succ i =>
          have h1s : ∀ i2 : ℕ, i2 < fuel →
              p.minBase < mab - (be + p.amountBase) - ((i2 : ℚ) + 1) * p.amountBase := by
            intro i2 hi2
            have h := h1 (i2 + 1) (Nat.succ_lt_succ hi2)
            push_cast at h
            have heq : mab - be - ((i2 : ℚ) + 1 + 1) * p.amountBase =
                mab - (be + p.amountBase) - ((i2 : ℚ) + 1) * p.amountBase := by ring
            rw [heq] at h
            exact h
          have h2s : ∀ i2 : ℕ, i2 < fuel →
              (q * (1 + p.spread / 2)) * (1 + p.spread / 2) ^ (i2 + 1)
                * (1 + p.offsetSpread / 2) ≤ p.priceLimit := by
            intro i2 hi2
            have h := h2 (i2 + 1) (Nat.succ_lt_succ hi2)
            have heq : q * (1 + p.spread / 2) ^ (i2 + 1 + 1) * (1 + p.offsetSpread / 2) =
                (q * (1 + p.spread / 2)) * (1 + p.spread / 2) ^ (i2 + 1)
                  * (1 + p.offsetSpread / 2) := by ring
            rw [heq] at h
            exact h
          have hdists : ∀ j : ℕ, j < fuel → j ≠ i →
              quantize ((q * (1 + p.spread / 2)) * (1 + p.spread / 2) ^ (j + 1)
                * (1 + p.offsetSpread / 2)) ≠
              quantize ((q * (1 + p.spread / 2)) * (1 + p.spread / 2) ^ (i + 1)
                * (1 + p.offsetSpread / 2)) := by
            intro j hj hji
            have hne := hdist (j + 1) (Nat.succ_lt_succ hj)
              (fun h => hji (Nat.succ_injective h))
            have e1 : q * (1 + p.spread / 2) ^ (j + 1 + 1) * (1 + p.offsetSpread / 2) =
                (q * (1 + p.spread / 2)) * (1 + p.spread / 2) ^ (j + 1)
                  * (1 + p.offsetSpread / 2) := by ring
            have e2 : q * (1 + p.spread / 2) ^ (i + 1 + 1) * (1 + p.offsetSpread / 2) =
                (q * (1 + p.spread / 2)) * (1 + p.spread / 2) ^ (i + 1)
                  * (1 + p.offsetSpread / 2) := by ring
            rw [e1, e2] at hne
            exact hne
          have eK : q * (1 + p.spread / 2) ^ (i + 1 + 1) * (1 + p.offsetSpread / 2) =
              (q * (1 + p.spread / 2)) * (1 + p.spread / 2) ^ (i + 1)
                * (1 + p.offsetSpread / 2) := by ring
          have eV : q * (1 + p.spread / 2) ^ (i + 1 + 1) =
              (q * (1 + p.spread / 2)) * (1 + p.spread / 2) ^ (i + 1) := by ring
          rw [eK, eV]
          exact ih (q * (1 + p.spread / 2)) (be + p.amountBase) _ i
            (Nat.lt_of_succ_lt_succ hi) h1s h2s hdists

/-- C8 (amended): for a sell-side run with no new trade history and no early
exit, a later reconciliation that observes the quantized emitted price of
level i+1 and finds it by exact match in the price-continuity map resolves
to the spread-compounded swing price of that iteration,
lastTradePrice * (1 + spread/2)^(i+1) — the emitted price before the offset
spread is applied and before quantization — not the pre-compounding swing
price of the iteration.  (Requires the quantized emitted prices of the run
to be pairwise distinct so that no later upsert overwrites the entry.) -/
theorem priceContinuity_roundtrip (isCcxtHack : Bool) (p : SwingLevelProvider)
    (pmap : List (ℚ × ℚ)) (maxAssetBase maxAssetQuote : ℚ) (N i : ℕ) (b : Bool)
    (hside : p.useMaxQuoteInTargetAmountCalc = false)
    (hN : p.maxLevels.toNat = N)
    (hbase : p.minBase < maxAssetBase)
    (h1 : ∀ i2 : ℕ, i2 < N →
      p.minBase < maxAssetBase - ((i2 : ℚ) + 1) * p.amountBase)
    (h2 : ∀ i2 : ℕ, i2 < N →
      p.lastTradePrice * (1 + p.spread / 2) ^ (i2 + 1) * (1 + p.offsetSpread / 2)
        ≤ p.priceLimit)
    (hi : i < N)
    (hdist : ∀ j : ℕ, j < N → j ≠ i →
      quantize (p.lastTradePrice * (1 + p.spread / 2) ^ (j + 1)
        * (1 + p.offsetSpread / 2)) ≠
      quantize (p.lastTradePrice * (1 + p.spread / 2) ^ (i + 1)
        * (1 + p.offsetSpread / 2))) :
    getLastPriceFromMap
      (GetLevels isCcxtHack [] p pmap maxAssetBase maxAssetQuote).2.2.1
      (quantize (p.lastTradePrice * (1 + p.spread / 2) ^ (i + 1)
        * (1 + p.offsetSpread / 2))) b =
      p.lastTradePrice * (1 + p.spread / 2) ^ (i + 1) := by
  subst hN
  have hb : ¬ (maxAssetBase ≤ p.minBase) := not_le.mpr hbase
  have h1c : ∀ i2 : ℕ, i2 < p.maxLevels.toNat →
      p.minBase < maxAssetBase - 0 - ((i2 : ℚ) + 1) * p.amountBase := by
    intro i2 hi2
    have := h1 i2 hi2
    linarith
  cases hf : p.isFirstTradeHistoryRun
  case false =>
      have hmap := genLevels_pmap_lookup p hside maxAssetBase p.maxLevels.toNat
        p.lastTradePrice 0 pmap i hi h1c h2 hdist
      have hred : (GetLevels isCcxtHack [] p pmap maxAssetBase maxAssetQuote).2.2.1 =
          (genLevels p maxAssetBase p.maxLevels.toNat p.lastTradePrice 0 pmap).2 := by
        simp [GetLevels, hb, fetchLatestTradePrice, fetchLoop, hf, hside]
      rw [hred]
      simp [getLastPriceFromMap, hmap]
  case true =>
      have hmap := genLevels_pmap_lookup
        {p with isFirstTradeHistoryRun := false, lastTradeCursor := p.lastTradeCursor}
        hside maxAssetBase p.maxLevels.toNat p.lastTradePrice 0 pmap i hi h1c h2 hdist
      have hred : (GetLevels isCcxtHack [] p pmap maxAssetBase maxAssetQuote).2.2.1 =
          (genLevels
            {p with isFirstTradeHistoryRun := false, lastTradeCursor := p.lastTradeCursor}
            maxAssetBase p.maxLevels.toNat p.lastTradePrice 0 pmap).2 := by
        simp [GetLevels, hb, fetchLatestTradePrice, fetchLoop, hf, hside]
      rw [hred]
      simp [getLastPriceFromMap, hmap]

/-- Witness for C8: with spread 0.02, offsetSpread 0, lastTradePrice 2 and
maxLevels 2, reconciling the first emitted price 2.02 by exact match yields
the compounded swing price 2 * 1.01. -/
theorem priceContinuity_roundtrip_witness :
    getLastPriceFromMap
      ((GetLevels false [] ⟨1/50, 0, 1, false, 2, 2, 1000000, 0, "c", true⟩
        [] 100 100).2.2.1)
      (quantize (2 * (1 + (1/50) / 2) ^ (0 + 1) * (1 + 0 / 2))) true =
      2 * (1 + (1/50 : ℚ) / 2) ^ (0 + 1) := by
  exact priceContinuity_roundtrip false
    ⟨1/50, 0, 1, false, 2, 2, 1000000, 0, "c", true⟩ [] 100 100 2 0 true
    rfl rfl (by norm_num)
    (by intro i hi; interval_cases i <;> norm_num)
    (by intro i hi; interval_cases i <;> norm_num)
    (by norm_num)
    (by intro j hj hji; interval_cases j
        · exact absurd rfl hji
        · norm_num [quantize])

/-- C8 counterexample: with spread 0.02, offsetSpread 0, lastTradePrice 2.0
and maxLevels 1, the only emitted level has quantized price 2.02; the claim
predicts that reconciling 2.02 by exact match recovers the pre-compounding
swing price 2.0 of that iteration, but the map stores the compounded price
2.02. -/
theorem priceContinuity_roundtrip_counterexample :
    getLastPriceFromMap
      ((GetLevels false [] ⟨1/50, 0, 1, false, 1, 2, 1000000, 0, "c", true⟩
        [] 100 100).2.2.1) (101/50) true ≠ 2 := by
  norm_num [GetLevels, fetchLatestTradePrice, fetchLoop, genLevels, quantize,
    mapUpsert, getLastPriceFromMap, mapLookup, scanStep]

/-! ### Submission-mode filter (trader/submitMode.go) -/

/-- The submit mode chosen for the trader bot. -/
inductive SubmitMode where
  | makerOnly
  | takerOnly
  | both
deriving DecidableEq

/-- `ParseSubmitMode`: convert a configuration string to a SubmitMode. -/
def ParseSubmitMode (submitMode : String) : SubmitMode :=
  if submitMode = "maker_only" then .makerOnly
  else if submitMode = "taker_only" then .takerOnly
  else .both

/-- An order operation passed to the submit filter (an abstraction of the
transaction mutators in the batch). -/
structure TransactionMutator where
  isBuy : Bool
  price : ℚ
  amount : ℚ
deriving DecidableEq

/-- An orderbook as fetched for the filter; `apply` uses an empty one (the
fetch call is commented out in the source). -/
structure OrderBook where
  bids : List (ℚ × ℚ)
  asks : List (ℚ × ℚ)
deriving DecidableEq

/-- The `sdexFilter`: trading pair elided, keeping the mode fixed at
construction. -/
structure SdexFilter where
  submitMode : SubmitMode
deriving DecidableEq

/-- `makeSubmitFilter`: construct the sdex filter only for MakerOnly or
TakerOnly; a Both mode yields no filter (nil). -/
def makeSubmitFilter (submitMode : SubmitMode) : Option SdexFilter :=
  if submitMode = .makerOnly ∨ submitMode = .takerOnly then
    some ⟨submitMode⟩
  else none

/-- `filterMakerMode` as written in the source: the orderbook intersection
is left unimplemented and the function returns nil with no error. -/
def filterMakerMode (ops : List TransactionMutator) (ob : OrderBook) :
    Except String (List TransactionMutator) :=
  .ok []

/-- `filterTakerMode` as written in the source: returns nil with no error. -/
def filterTakerMode (ops : List TransactionMutator) (ob : OrderBook) :
    Except String (List TransactionMutator) :=
  .ok []

/-- `sdexFilter.apply`: the orderbook fetch is commented out in the source
and an empty orderbook is used; dispatch on the mode to the maker or taker
filter, wrapping any error. -/
def sdexFilterApply (f : SdexFilter) (ops : List TransactionMutator) :
    Except String (List TransactionMutator) :=
  let ob : OrderBook := ⟨[], []⟩
  if f.submitMode = .makerOnly then
    match filterMakerMode ops ob with
    | .error e => .error ("could not apply maker mode filter: " ++ e)
    | .ok ops2 => .ok ops2
  else
    match filterTakerMode ops ob with
    | .error e => .error ("could not apply taker mode filter: " ++ e)
    | .ok ops2 => .ok ops2

/-- C9 evaluation at the failing input: a single non-crossing sell (price
100, amount 1; the orderbook used by the filter is empty, so nothing can be
crossed) is dropped by the MakerOnly filter instead of passing through
unchanged — `filterMakerMode` is stubbed to return nil, so the filtered
batch is always empty. -/
theorem sdexFilterApply_makerOnly_drops_all :
    sdexFilterApply ⟨.makerOnly⟩ [⟨false, 100, 1⟩] = .ok [] ∧
    (Except.ok [] : Except String (List TransactionMutator)) ≠
      .ok [⟨false, 100, 1⟩] := by
  exact ⟨rfl, by simp⟩

/-- C10: ParseSubmitMode returns MakerOnly exactly for "maker_only" and
TakerOnly exactly for "taker_only"; every other string (including the empty
string) yields SubmitModeBoth, and makeSubmitFilter yields no filter for
Both — so an unrecognized mode string disables submission-mode filtering. -/
theorem parseSubmitMode_spec (s : String) :
    (ParseSubmitMode s = .makerOnly ↔ s = "maker_only") ∧
    (ParseSubmitMode s = .takerOnly ↔ s = "taker_only") ∧
    (s ≠ "maker_only" → s ≠ "taker_only" → ParseSubmitMode s = .both) ∧
    makeSubmitFilter .both = none ∧
    ParseSubmitMode "" = .both := by
  refine ⟨?_, ?_, ?_, rfl, rfl⟩
  · constructor
    · intro h
      by_contra hne
      rw [ParseSubmitMode, if_neg hne] at h
      by_cases h2 : s = "taker_only"
      · rw [if_pos h2] at h; exact SubmitMode.noConfusion h
      · rw [if_neg h2] at h; exact SubmitMode.noConfusion h
    · intro h; rw [ParseSubmitMode, if_pos h]
  · constructor
    · intro h
      by_cases h1 : s = "maker_only"
      · rw [ParseSubmitMode, if_pos h1] at h; exact absurd h (by simp)
      · by_contra hne
        rw [ParseSubmitMode, if_neg h1, if_neg hne] at h
        exact SubmitMode.noConfusion h
    · intro h
      have h1 : s ≠ "maker_only" := by
        intro he; rw [he] at h; exact absurd h (by decide)
      rw [ParseSubmitMode, if_neg h1, if_pos h]
  · intro h1 h2
    rw [ParseSubmitMode, if_neg h1, if_neg h2]

/-- Witness for C10: a misspelled mode string parses to Both, for which no
filter is constructed. -/
theorem parseSubmitMode_spec_witness :
    ParseSubmitMode "mker_only" = .both ∧ makeSubmitFilter .both = none := by
  exact ⟨(parseSubmitMode_spec "mker_only").2.2.1 (by decide) (by decide),
    (parseSubmitMode_spec "mker_only").2.2.2.1⟩

end Kelp
